import Mathlib

/-!
Shallow embedding of coapy's scholar.py coauthor pipeline.

The four stages of the source pipeline — year filtering, author-string
splitting, NSF name reordering with de-duplication, and CSV writing — are
reproduced here over explicit data.  External-service interaction is modelled
by data already present on the records: a publication carries the full author
string that the coauthors fill would return, and a profile carries its name
and publication list.  CPython string primitives (split, join, comparison)
are modelled structurally over character lists so that every definition is
executable by the kernel.
-/

namespace Coapy

/-- Attempts to strip a separator from the front of a character list, returning
the remainder on success. -/
def dropSep : List Char → List Char → Option (List Char)
  | [], cs => some cs
  | _ :: _, [] => none
  | p :: ps, c :: cs => if c = p then dropSep ps cs else none

/-- Fuel-indexed scanner modelling CPython str.split with a non-empty
separator: scan left to right and cut at each non-overlapping occurrence of
the separator.  The fuel bounds the number of scan steps; the initial call
passes the length of the list, which suffices whenever the separator is
non-empty, so the fuel-exhausted branch is never taken there. -/
def pySplitAux (sep : List Char) : Nat → List Char → List Char → List (List Char)
  | _, [], acc => [acc.reverse]
  | 0, l, acc => [acc.reverse ++ l]
  | fuel + 1, c :: cs, acc =>
    match dropSep sep (c :: cs) with
    | some rest => acc.reverse :: pySplitAux sep fuel rest []
    | none => pySplitAux sep fuel cs (c :: acc)

/-- CPython str.split with a non-empty separator string, as used for the
" and " author separator. -/
def pySplit (sep : String) (s : String) : List String :=
  (pySplitAux sep.data s.data.length s.data []).map String.mk

/-- Splits a character list at every occurrence of a separator character,
modelling CPython str.split with a single-character separator: n separator
occurrences produce n + 1 (possibly empty) fields. -/
def splitChar (sep : Char) : List Char → List (List Char)
  | [] => [[]]
  | c :: cs =>
    let ts := splitChar sep cs
    if c = sep then [] :: ts else (c :: ts.headD []) :: ts.tail

/-- Concatenation of character-list parts with a separator in between. -/
def joinParts (sep : List Char) : List (List Char) → List Char
  | [] => []
  | [t] => t
  | t :: t' :: rest => t ++ sep ++ joinParts sep (t' :: rest)

/-- CPython str.join: the parts concatenated with the separator in between. -/
def pyJoin (sep : String) (parts : List String) : String :=
  String.mk (joinParts sep.data (parts.map String.data))

/-- Bibliographic fields of a publication as scholar.py reads them: pub_year is
absent when the service recorded no publication year (the source reads it with
a current-year default), and author is the full " and "-separated author
string available once the coauthors section of the record is filled. -/
structure Bib where
  pub_year : Option Int
  author : String
deriving DecidableEq

/-- A publication record; the source only ever reads paper["bib"]. -/
structure Publication where
  bib : Bib
deriving DecidableEq

/-- An author profile as returned by the profile fetch: the fields of the
scholarly Author record that get_coauthors reads. -/
structure AuthorProfile where
  name : String
  publications : List Publication
deriving DecidableEq

/-- Reads a publication's year: int(paper["bib"].get("pub_year", current_year)). -/
def pubYear (current_year : Int) (p : Publication) : Int :=
  p.bib.pub_year.getD current_year

/-- The year test pub_year >= year_cutoff after the source's substitution of
math.inf for a missing cutoff: a finite integer never satisfies
pub_year >= math.inf, so the none case is false. -/
def passesCutoff (year_cutoff : Option Int) (pub_year : Int) : Bool :=
  match year_cutoff with
  | some c => decide (c ≤ pub_year)
  | none => false

/-- The paper_subset / year_subset selection loop of _get_coauthors_from_pubs,
with the two parallel lists represented as a single list of pairs. -/
def paperYearSubset (current_year : Int) (year_cutoff : Option Int)
    (papers : List Publication) : List (Publication × Int) :=
  (papers.map fun p => (p, pubYear current_year p)).filter fun q =>
    passesCutoff year_cutoff q.2

/-- Reorders one name into NSF form: split on single spaces, the surname is the
last field, and the remaining fields are rejoined with single spaces after
"Lastname, ". -/
def nsfNameCleanupElem (coauthor : String) : String :=
  let name_parts := (splitChar ' ' coauthor.data).map String.mk
  name_parts.getLastD "" ++ ", " ++ pyJoin " " name_parts.dropLast

/-- _nsf_name_cleanup: elementwise NSF reordering of a list of names. -/
def _nsf_name_cleanup (coauthors : List String) : List String :=
  coauthors.map nsfNameCleanupElem

/-- Lexicographic comparison of strings by code point, as CPython compares
str values. -/
def strLt (s t : String) : Prop := s.data < t.data

instance : DecidableRel strLt := fun s t =>
  inferInstanceAs (Decidable (s.data < t.data))

/-- Comparison of (name, year) pairs as CPython sorted compares tuples:
lexicographically, name first, year as tie-break. -/
def pairLE (a b : String × Int) : Prop :=
  strLt a.1 b.1 ∨ (a.1 = b.1 ∧ a.2 ≤ b.2)

instance : DecidableRel pairLE := fun a b => by unfold pairLE; infer_instance

/-- CPython sorted on (str, int) pairs.  Under pairLE mutual comparability
implies equality, so the sorted rearrangement of a list is unique and
insertion sort agrees with the stable mergesort CPython uses. -/
def pySorted (l : List (String × Int)) : List (String × Int) :=
  List.insertionSort pairLE l

/-- One iteration of the de-duplication loop on an insertion-ordered dict,
modelled as an association list: an existing key keeps its position and takes
the max of the stored and incoming year, a new key is appended at the end. -/
def dictInsertMax (m : List (String × Int)) (k : String) (y : Int) :
    List (String × Int) :=
  if m.any fun p => decide (p.1 = k) then
    m.map fun p => if p.1 = k then (p.1, max p.2 y) else p
  else m ++ [(k, y)]

/-- The de-duplication loop building coauthor_year_map. -/
def buildMap (pairs : List (String × Int)) : List (String × Int) :=
  pairs.foldl (fun m p => dictInsertMax m p.1 p.2) []

/-- dict.pop(k, None): removes the entry with the given key, if present,
keeping the remaining entries in order. -/
def dictPop (m : List (String × Int)) (k : String) : List (String × Int) :=
  m.filter fun p => decide (p.1 ≠ k)

/-- Lookup in the ordered-dict model. -/
def dictGet (m : List (String × Int)) (k : String) : Option Int :=
  (m.find? fun p => decide (p.1 = k)).map Prod.snd

/-- Combination of two optional maxima. -/
def combineMax : Option Int → Option Int → Option Int
  | none, b => b
  | some v, none => some v
  | some v, some w => some (max v w)

/-- The maximum of a list of years, none for the empty list. -/
def maxYear : List Int → Option Int
  | [] => none
  | y :: ys => combineMax (some y) (maxYear ys)

deriving instance DecidableEq for Except

/-- The ValueError raised by the unpacking
zip(*sorted(zip(all_coauthors, all_years))) when both lists are empty. -/
def unpackError : String := "ValueError: not enough values to unpack"

/-- Shallow embedding of _get_coauthors_from_pubs.  The per-publication
enrichment fetch is modelled by reading the author string already present on
the publication; the parallel lists all_coauthors / all_years are represented
as one list of pairs, which the zips in the source make equivalent. -/
def _get_coauthors_from_pubs (current_year : Int) (papers : List Publication)
    (year_cutoff : Option Int) (my_name : Option String) :
    Except String (List (String × Int)) :=
  let subset := paperYearSubset current_year year_cutoff papers
  let all_pairs := subset.flatMap fun q =>
    (pySplit " and " q.1.bib.author).map fun a => (a, q.2)
  let cleaned := all_pairs.map fun p => (nsfNameCleanupElem p.1, p.2)
  if cleaned.isEmpty then
    Except.error unpackError
  else
    let coauthor_year_map := buildMap (pySorted cleaned)
    Except.ok
      (match my_name with
        | some n =>
          if n = "" then coauthor_year_map else dictPop coauthor_year_map n
        | none => coauthor_year_map)

/-- File content produced by _dump_to_csv: one "{name}, {year}\n" line per
entry, in the order of the mapping's entries. -/
def _dump_to_csv (co_authors : List (String × Int)) : String :=
  String.join (co_authors.map fun p => p.1 ++ ", " ++ toString p.2 ++ "\n")

/-- Line-by-line read-back of written file content: the fields between newline
characters, without the trailing empty field of content ending in a newline. -/
def readLines (s : String) : List String :=
  ((splitChar '\n' s.data).map String.mk).dropLast

/-- year_cutoff = (today.year - years_back) if years_back else None: an absent
or zero years_back (both falsy in Python) leaves the cutoff unset. -/
def yearCutoff (current_year : Int) (years_back : Option Int) : Option Int :=
  match years_back with
  | some n => if n = 0 then none else some (current_year - n)
  | none => none

/-- Shallow embedding of get_coauthors over a pre-fetched profile: computes the
cutoff from years_back, aggregates, and pairs the returned mapping with the
file content written — none when filename is falsy (absent or empty) and the
write is skipped. -/
def get_coauthors (current_year : Int) (profile : AuthorProfile)
    (years_back : Option Int) (filename : Option String) :
    Except String (List (String × Int) × Option String) :=
  (_get_coauthors_from_pubs current_year profile.publications
      (yearCutoff current_year years_back) (some profile.name)).map
    fun co_authors =>
      (co_authors,
        match filename with
        | some fn => if fn = "" then none else some (_dump_to_csv co_authors)
        | none => none)

/-- C1: the claim says an unset year cutoff (years_back / year_cutoff None)
considers every publication, as the source's own docstring also states.  The
code instead substitutes math.inf for the missing cutoff and keeps a
publication only when pub_year >= math.inf, which no finite year satisfies:
the included subset is empty for every publication list, and on a non-empty
list the subsequent unpacking raises.  Evaluated here both in general and at
a concrete failing input. -/
theorem C1_unset_cutoff_excludes_every_publication :
    (∀ (current_year : Int) (papers : List Publication),
      paperYearSubset current_year none papers = []) ∧
    _get_coauthors_from_pubs 2024 [⟨⟨some 2023, "Jane Doe"⟩⟩] none none =
      Except.error unpackError := by
  refine ⟨fun current_year papers => ?_, by decide⟩
  simp [paperYearSubset, passesCutoff]

/-- C2: the claim says the entry whose key is the formatted "Last, First"
form of the primary author's name is removed from the final mapping.  The
code pops the raw profile name from a dict keyed by formatted names, so the
formatted self-entry survives: with primary author "Jane Doe" on one
qualifying publication, the returned mapping still contains the key
"Doe, Jane", the formatted form of "Jane Doe". -/
theorem C2_formatted_self_name_survives_pop :
    nsfNameCleanupElem "Jane Doe" = "Doe, Jane" ∧
    _get_coauthors_from_pubs 2024 [⟨⟨some 2023, "Jane Doe and John Smith"⟩⟩]
        (some 2020) (some "Jane Doe") =
      Except.ok [("Doe, Jane", 2023), ("Smith, John", 2023)] := by decide

/-- C3 counterexample: the writer emits lines in the order of the mapping's
entries and performs no sorting, so writing the mapping whose entries are in
the insertion order of the literal, Smith first, does not read back in
sorted order. -/
theorem C3_writer_does_not_sort :
    readLines (_dump_to_csv [("Smith, John", 2023), ("Doe, Jane", 2021)]) ≠
      ["Doe, Jane, 2021", "Smith, John, 2023"] := by decide

/-- C3 amended: the writer produces one "{name}, {year}" line per entry in
the mapping's own entry order; the round trip of the claim holds exactly when
the two entries are already in sorted order, Doe before Smith, while the
claim's literal entry order reads back Smith first. -/
theorem C3_writer_preserves_entry_order :
    readLines (_dump_to_csv [("Doe, Jane", 2021), ("Smith, John", 2023)]) =
      ["Doe, Jane, 2021", "Smith, John, 2023"] ∧
    readLines (_dump_to_csv [("Smith, John", 2023), ("Doe, Jane", 2021)]) =
      ["Smith, John, 2023", "Doe, Jane, 2021"] := by decide

/-- C4: whenever no publication passes the year filter, the aggregator does
not return an empty mapping: the unpacking of the sorted zipped lists has
nothing to unpack and the call raises instead. -/
theorem C4_empty_subset_raises (current_year : Int) (papers : List Publication)
    (year_cutoff : Option Int) (my_name : Option String)
    (h : paperYearSubset current_year year_cutoff papers = []) :
    _get_coauthors_from_pubs current_year papers year_cutoff my_name =
      Except.error unpackError := by
  simp [_get_coauthors_from_pubs, h]

/-- Witness for C4 at a concrete input with no qualifying publication. -/
theorem C4_empty_subset_raises_witness :
    paperYearSubset 2024 (some 2030) [⟨⟨some 2023, "Al Adams"⟩⟩] = [] ∧
    _get_coauthors_from_pubs 2024 [⟨⟨some 2023, "Al Adams"⟩⟩] (some 2030) none =
      Except.error unpackError :=
  ⟨by decide, C4_empty_subset_raises 2024 _ (some 2030) none (by decide)⟩

/-- C5: a publication with no recorded year does default to the current
calendar year, but it is not always included: under the unbounded cutoff the
source substitutes math.inf and the defaulted current year fails
current_year >= math.inf, so the missing-year publication is excluded there,
against the claim.  Evaluated at the failing input. -/
theorem C5_missing_year_excluded_under_unbounded_cutoff :
    pubYear 2024 ⟨⟨none, "Jane Doe"⟩⟩ = 2024 ∧
    passesCutoff none (pubYear 2024 ⟨⟨none, "Jane Doe"⟩⟩) = false ∧
    paperYearSubset 2024 none [⟨⟨none, "Jane Doe"⟩⟩] = [] := by decide

/-- C6: under a finite cutoff a publication with a recorded year is kept
exactly when its year is at least the cutoff; in particular a year equal to
the cutoff is kept and a year one below the cutoff is dropped. -/
theorem C6_finite_cutoff_boundary (current_year c y : Int) (a : String) :
    (paperYearSubset current_year (some c) [⟨⟨some y, a⟩⟩] =
      if c ≤ y then [(⟨⟨some y, a⟩⟩, y)] else []) ∧
    paperYearSubset current_year (some c) [⟨⟨some c, a⟩⟩] =
      [(⟨⟨some c, a⟩⟩, c)] ∧
    paperYearSubset current_year (some c) [⟨⟨some (c - 1), a⟩⟩] = [] := by
  refine ⟨?_, ?_, ?_⟩
  · by_cases hcy : c ≤ y <;>
      simp [paperYearSubset, pubYear, passesCutoff, hcy]
  · simp [paperYearSubset, pubYear, passesCutoff]
  · have hlt : ¬ c ≤ c - 1 := by omega
    simp [paperYearSubset, pubYear, passesCutoff, hlt]

theorem combineMax_assoc (a b c : Option Int) :
    combineMax (combineMax a b) c = combineMax a (combineMax b c) := by
  cases a <;> cases b <;> cases c <;> simp [combineMax, max_assoc]

theorem dictGet_nil (k : String) : dictGet [] k = none := rfl

theorem dictGet_cons (x : String × Int) (m : List (String × Int)) (k : String) :
    dictGet (x :: m) k = if x.1 = k then some x.2 else dictGet m k := by
  by_cases h : x.1 = k <;> simp [dictGet, List.find?_cons, h]

theorem dictGet_mapMax_eq (m : List (String × Int)) (k : String) (y : Int) :
    dictGet (m.map fun p => if p.1 = k then (p.1, max p.2 y) else p) k =
      (dictGet m k).map (fun v => max v y) := by
  induction m with
  | nil => simp [dictGet]
  | cons x m ih =>
    by_cases hx : x.1 = k
    · simp [dictGet_cons, hx]
    · simp [dictGet_cons, hx, ih]

theorem dictGet_mapMax_ne (m : List (String × Int)) (k k' : String) (y : Int)
    (hk : k' ≠ k) :
    dictGet (m.map fun p => if p.1 = k then (p.1, max p.2 y) else p) k' =
      dictGet m k' := by
  induction m with
  | nil => rfl
  | cons x m ih =>
    by_cases hx : x.1 = k
    · have hk' : ¬ k = k' := fun e => hk e.symm
      simp [dictGet_cons, hx, hk', ih]
    · simp [dictGet_cons, hx, ih]

theorem dictGet_insertMax (m : List (String × Int)) (k k' : String) (y : Int) :
    dictGet (dictInsertMax m k y) k' =
      if k' = k then combineMax (dictGet m k) (some y) else dictGet m k' := by
  unfold dictInsertMax
  split
  · next hany =>
    by_cases hk : k' = k
    · subst hk
      rw [dictGet_mapMax_eq, if_pos rfl]
      have hsome : (m.find? fun p => decide (p.1 = k')).isSome := by
        rw [List.find?_isSome]
        obtain ⟨p, hpm, hpk⟩ := List.any_eq_true.1 hany
        exact ⟨p, hpm, hpk⟩
      obtain ⟨q, hq⟩ := Option.isSome_iff_exists.1 hsome
      simp [dictGet, hq, combineMax]
    · rw [dictGet_mapMax_ne m k k' y hk, if_neg hk]
  · next hany =>
    have hnone : (m.find? fun p => decide (p.1 = k)) = none := by
      rw [List.find?_eq_none]
      intro x hx hxk
      exact hany (List.any_eq_true.2 ⟨x, hx, hxk⟩)
    by_cases hk : k' = k
    · subst hk
      simp [dictGet, List.find?_append, hnone, combineMax, List.find?_cons]
    · have hlast : (([(k, y)] : List (String × Int)).find?
          fun p => decide (p.1 = k')) = none := by
        have hkk : ¬ (((k, y) : String × Int).1 = k') := fun e => hk e.symm
        simp [List.find?_cons, hkk]
      simp [dictGet, List.find?_append, hlast, hk]

theorem foldl_insertMax_get (pairs : List (String × Int))
    (m : List (String × Int)) (k : String) :
    dictGet (pairs.foldl (fun m p => dictInsertMax m p.1 p.2) m) k =
      combineMax (dictGet m k)
        (maxYear ((pairs.filter fun p => decide (p.1 = k)).map Prod.snd)) := by
  induction pairs generalizing m with
  | nil =>
    cases h : dictGet m k <;> simp [maxYear, combineMax, h]
  | cons p ps ih =>
    rw [List.foldl_cons, ih]
    by_cases hp : p.1 = k
    · rw [List.filter_cons_of_pos (by simpa using hp), List.map_cons,
        dictGet_insertMax, if_pos hp.symm, hp]
      exact combineMax_assoc (dictGet m k) (some p.2)
        (maxYear ((ps.filter fun p => decide (p.1 = k)).map Prod.snd))
    · rw [List.filter_cons_of_neg (by simpa using hp), dictGet_insertMax,
        if_neg fun e => hp e.symm]

theorem maxYear_perm {l l' : List Int} (h : l.Perm l') :
    maxYear l = maxYear l' := by
  induction h with
  | nil => rfl
  | cons x h ih =>
    show combineMax (some x) _ = combineMax (some x) _
    rw [ih]
  | swap x y l =>
    show combineMax (some y) (combineMax (some x) (maxYear l)) =
      combineMax (some x) (combineMax (some y) (maxYear l))
    cases maxYear l <;> simp [combineMax, max_comm, max_left_comm]
  | trans _ _ ih1 ih2 => rw [ih1, ih2]

/-- C7: in the mapping built by the de-duplication loop, the year stored for a
key is the maximum over all (name, year) pairs carrying that key — both for
the reduction itself and through the pre-sort the source applies first — and
two publications listing "Jane Doe" in 2020 and 2022 reduce to the single
entry ("Doe, Jane", 2022). -/
theorem C7_dedup_stores_max_year :
    (∀ (pairs : List (String × Int)) (k : String),
      dictGet (buildMap pairs) k =
        maxYear ((pairs.filter fun p => decide (p.1 = k)).map Prod.snd)) ∧
    (∀ (pairs : List (String × Int)) (k : String),
      dictGet (buildMap (pySorted pairs)) k =
        maxYear ((pairs.filter fun p => decide (p.1 = k)).map Prod.snd)) ∧
    _get_coauthors_from_pubs 2024
        [⟨⟨some 2020, "Jane Doe"⟩⟩, ⟨⟨some 2022, "Jane Doe"⟩⟩] (some 2019)
        none =
      Except.ok [("Doe, Jane", 2022)] := by
  have hmain : ∀ (pairs : List (String × Int)) (k : String),
      dictGet (buildMap pairs) k =
        maxYear ((pairs.filter fun p => decide (p.1 = k)).map Prod.snd) := by
    intro pairs k
    rw [buildMap, foldl_insertMax_get, dictGet_nil]
    rfl
  refine ⟨hmain, fun pairs k => ?_, by decide⟩
  rw [hmain]
  exact maxYear_perm
    (((List.perm_insertionSort pairLE pairs).filter _).map Prod.snd)

theorem splitChar_sepFree (sep : Char) (t : List Char) (h : sep ∉ t) :
    splitChar sep t = [t] := by
  induction t with
  | nil => rfl
  | cons c cs ih =>
    have hc : ¬ c = sep := fun e => h (e ▸ List.mem_cons_self c cs)
    have hcs : sep ∉ cs := fun e => h (List.mem_cons_of_mem _ e)
    simp [splitChar, hc, ih hcs]

theorem splitChar_append (sep : Char) (t l : List Char) (h : sep ∉ t) :
    splitChar sep (t ++ sep :: l) = t :: splitChar sep l := by
  induction t with
  | nil => simp [splitChar]
  | cons c cs ih =>
    have hc : ¬ c = sep := fun e => h (e ▸ List.mem_cons_self c cs)
    have hcs : sep ∉ cs := fun e => h (List.mem_cons_of_mem _ e)
    simp [splitChar, hc, ih hcs]

theorem splitChar_joinParts (sep : Char) :
    ∀ (tss : List (List Char)), tss ≠ [] → (∀ t ∈ tss, sep ∉ t) →
      splitChar sep (joinParts [sep] tss) = tss
  | [], h, _ => absurd rfl h
  | [t], _, hfree => by
    simpa [joinParts] using splitChar_sepFree sep t (hfree t (by simp))
  | t :: t' :: rest, _, hfree => by
    have h1 : sep ∉ t := hfree t (by simp)
    have ih := splitChar_joinParts sep (t' :: rest) (by simp)
      fun u hu => hfree u (List.mem_cons_of_mem _ hu)
    calc splitChar sep (joinParts [sep] (t :: t' :: rest))
        = splitChar sep (t ++ sep :: joinParts [sep] (t' :: rest)) := by
          simp [joinParts]
      _ = t :: splitChar sep (joinParts [sep] (t' :: rest)) :=
          splitChar_append sep t _ h1
      _ = t :: t' :: rest := by rw [ih]

/-- C8: the per-element name formatter applied to a raw name assembled from
space-separated tokens yields the last token, then ", ", then the remaining
tokens rejoined by single spaces; in particular the single-token name "Smith"
formats to "Smith, " with an empty first/middle segment. -/
theorem C8_formatter_last_comma_init :
    (∀ (ts : List String) (h : ts ≠ []), (∀ t ∈ ts, ' ' ∉ t.data) →
      nsfNameCleanupElem (pyJoin " " ts) =
        ts.getLast h ++ ", " ++ pyJoin " " ts.dropLast) ∧
    nsfNameCleanupElem "Smith" = "Smith, " := by
  refine ⟨fun ts h hfree => ?_, by decide⟩
  have hne : ts.map String.data ≠ [] := by simpa using h
  have hfree' : ∀ t ∈ ts.map String.data, ' ' ∉ t := by
    intro t ht
    obtain ⟨u, hu, rfl⟩ := List.mem_map.1 ht
    exact hfree u hu
  have hsplit : splitChar ' ' (pyJoin " " ts).data = ts.map String.data :=
    splitChar_joinParts ' ' (ts.map String.data) hne hfree'
  have hid : (ts.map String.data).map String.mk = ts := by
    rw [List.map_map]
    exact List.map_id ts
  simp only [nsfNameCleanupElem, hsplit, hid]
  rw [List.getLastD_eq_getLast?, List.getLast?_eq_getLast ts h]
  rfl

/-- Witness for C8 at the concrete token list ["Jane", "Q", "Doe"]. -/
theorem C8_formatter_last_comma_init_witness :
    nsfNameCleanupElem (pyJoin " " ["Jane", "Q", "Doe"]) =
      (["Jane", "Q", "Doe"] : List String).getLast (by decide) ++ ", " ++
        pyJoin " " ((["Jane", "Q", "Doe"] : List String).dropLast) :=
  C8_formatter_last_comma_init.1 ["Jane", "Q", "Doe"] (by decide) (by decide)

/-- Non-strict code-point comparison of strings. -/
def strLE (s t : String) : Prop := s.data ≤ t.data

theorem strData_inj {a b : String} (h : a.data = b.data) : a = b := by
  cases a
  cases b
  exact congrArg String.mk h

theorem strLt_trans {a b c : String} (h1 : strLt a b) (h2 : strLt b c) :
    strLt a c := lt_trans h1 h2

theorem strLt_total (a b : String) : strLt a b ∨ a = b ∨ strLt b a := by
  rcases lt_trichotomy a.data b.data with h | h | h
  · exact Or.inl h
  · exact Or.inr (Or.inl (strData_inj h))
  · exact Or.inr (Or.inr h)

theorem strLt_of_strLE_of_ne {a b : String} (h1 : strLE a b) (h2 : a ≠ b) :
    strLt a b := by
  rcases lt_or_eq_of_le (h1 : a.data ≤ b.data) with h | h
  · exact h
  · exact absurd (strData_inj h) h2

instance : IsTrans (String × Int) pairLE where
  trans a b c hab hbc := by
    rcases hab with h1 | ⟨e1, y1⟩ <;> rcases hbc with h2 | ⟨e2, y2⟩
    · exact Or.inl (strLt_trans h1 h2)
    · exact Or.inl (e2 ▸ h1)
    · exact Or.inl (e1.symm ▸ h2)
    · exact Or.inr ⟨e1.trans e2, le_trans y1 y2⟩

instance : IsTotal (String × Int) pairLE where
  total a b := by
    rcases strLt_total a.1 b.1 with h | h | h
    · exact Or.inl (Or.inl h)
    · rcases le_total a.2 b.2 with hy | hy
      · exact Or.inl (Or.inr ⟨h, hy⟩)
      · exact Or.inr (Or.inr ⟨h.symm, hy⟩)
    · exact Or.inr (Or.inl h)

theorem pySorted_pairwise (l : List (String × Int)) :
    (pySorted l).Pairwise pairLE :=
  List.sorted_insertionSort pairLE l

theorem keys_insertMax (m : List (String × Int)) (k : String) (y : Int) :
    (dictInsertMax m k y).map Prod.fst =
      if (m.any fun p => decide (p.1 = k)) = true then m.map Prod.fst
      else m.map Prod.fst ++ [k] := by
  unfold dictInsertMax
  split
  · rw [List.map_map]
    apply List.map_congr_left
    intro p _
    show ((if p.1 = k then (p.1, max p.2 y) else p) : String × Int).1 = p.1
    split <;> rfl
  · rw [List.map_append]
    rfl

theorem keys_sorted_foldl (pairs : List (String × Int)) :
    ∀ (m : List (String × Int)),
      ((m.map Prod.fst).Pairwise strLt) →
      (∀ k ∈ m.map Prod.fst, ∀ p ∈ pairs, strLE k p.1) →
      pairs.Pairwise (fun a b => strLE a.1 b.1) →
      ((pairs.foldl (fun m p => dictInsertMax m p.1 p.2) m).map
        Prod.fst).Pairwise strLt := by
  induction pairs with
  | nil =>
    intro m h1 _ _
    simpa using h1
  | cons p ps ih =>
    intro m h1 h2 h3
    obtain ⟨h3head, h3tail⟩ := List.pairwise_cons.1 h3
    rw [List.foldl_cons]
    apply ih
    · rw [keys_insertMax]
      split
      · exact h1
      · next hnot =>
        rw [List.pairwise_append]
        refine ⟨h1, List.pairwise_singleton _ _, ?_⟩
        intro a ha b hb
        rw [List.mem_singleton] at hb
        subst hb
        have hle : strLE a p.1 := h2 a ha p (List.mem_cons_self p ps)
        have hne : a ≠ p.1 := by
          intro e
          apply hnot
          obtain ⟨q, hq, hq1⟩ := List.mem_map.1 ha
          exact List.any_eq_true.2 ⟨q, hq, by simp [hq1, e]⟩
        exact strLt_of_strLE_of_ne hle hne
    · intro k hk q hq
      rw [keys_insertMax] at hk
      have hofm : ∀ k', k' ∈ m.map Prod.fst → strLE k' q.1 :=
        fun k' hk' => h2 k' hk' q (List.mem_cons_of_mem p hq)
      split at hk
      · exact hofm k hk
      · rcases List.mem_append.1 hk with hk' | hk'
        · exact hofm k hk'
        · rw [List.mem_singleton] at hk'
          subst hk'
          exact h3head q hq
    · exact h3tail

/-- C9: every mapping the aggregator returns successfully has its keys in
strictly ascending code-point order: the pre-sort of the (name, year) pairs
makes the first insertion of each key happen in sorted order, the
insertion-ordered dict preserves first-insertion order, and the final pop
only deletes an entry.  This is what makes the written file sorted although
the writer itself sorts nothing. -/
theorem C9_mapping_keys_sorted (current_year : Int) (papers : List Publication)
    (year_cutoff : Option Int) (my_name : Option String)
    (m : List (String × Int))
    (h : _get_coauthors_from_pubs current_year papers year_cutoff my_name =
      Except.ok m) :
    (m.map Prod.fst).Pairwise strLt := by
  simp only [_get_coauthors_from_pubs] at h
  split at h
  · exact Except.noConfusion h
  · rw [Except.ok.injEq] at h
    subst h
    have hbase :
        ∀ (l : List (String × Int)),
          ((buildMap (pySorted l)).map Prod.fst).Pairwise strLt := by
      intro l
      apply keys_sorted_foldl (pySorted l) []
      · simp
      · simp
      · exact (pySorted_pairwise l).imp fun hab => by
          rcases hab with h' | ⟨e, _⟩
          · exact le_of_lt h'
          · exact le_of_eq (congrArg String.data e)
    cases my_name with
    | none => exact hbase _
    | some n =>
      by_cases hn : n = ""
      · simpa [hn] using hbase _
      · simp only [hn, if_false, dictPop]
        exact List.Pairwise.sublist
          ((List.filter_sublist _).map Prod.fst) (hbase _)

/-- Witness for C9 at a concrete two-coauthor input. -/
theorem C9_mapping_keys_sorted_witness :
    _get_coauthors_from_pubs 2024 [⟨⟨some 2020, "Bob Zeta and Al Adams"⟩⟩]
        (some 2019) none =
      Except.ok [("Adams, Al", 2020), ("Zeta, Bob", 2020)] ∧
    (([("Adams, Al", 2020), ("Zeta, Bob", 2020)] : List (String × Int)).map
      Prod.fst).Pairwise strLt :=
  ⟨by decide,
    C9_mapping_keys_sorted 2024 [⟨⟨some 2020, "Bob Zeta and Al Adams"⟩⟩]
      (some 2019) none [("Adams, Al", 2020), ("Zeta, Bob", 2020)] (by decide)⟩

/-- C10: with no output path the write is skipped entirely — the file
component of the result is none — and for every filename choice the mapping
get_coauthors returns is exactly the aggregator's result, unchanged by
whether the write occurred. -/
theorem C10_no_filename_skips_write (current_year : Int)
    (profile : AuthorProfile) (years_back : Option Int) :
    get_coauthors current_year profile years_back none =
      (_get_coauthors_from_pubs current_year profile.publications
          (yearCutoff current_year years_back) (some profile.name)).map
        (fun co_authors => (co_authors, none)) ∧
    ∀ (filename : Option String),
      (get_coauthors current_year profile years_back filename).map Prod.fst =
        _get_coauthors_from_pubs current_year profile.publications
          (yearCutoff current_year years_back) (some profile.name) := by
  constructor
  · rfl
  · intro filename
    unfold get_coauthors
    cases _get_coauthors_from_pubs current_year profile.publications
        (yearCutoff current_year years_back) (some profile.name) with
    | error e => rfl
    | ok co_authors => rfl

end Coapy
